import Mathlib

/-!
Verification of the snowflake-mapper schema-export tool (src/main.rs).

The development shallowly embeds the program's pure logic:
row decoding (`get_value_from_row`, `get_i32_from_row`, `decode_column_info`),
the streaming group-by of `get_tables_for_database` (`agg_rows`),
the retry loop (`with_retry`), warehouse selection (`set_warehouse`),
the per-database orchestration loop of `main` (`process_databases`),
output-path construction (`output_path`) and the export writer
(`write_formatted_output`).  External effects (the Snowflake session,
the filesystem) are passed in as explicit function arguments whose
results stand for the outcome of the corresponding call in the source.
-/

/-- Mirrors the Rust enum `SnowflakeMapperError` (src/main.rs lines 14-33). -/
inductive SnowflakeMapperError where
  | ConnectionError (msg : String)
  | QueryError (msg : String)
  | ColumnError (column : String) (message : String)
  | OutputError (msg : String)
  | MissingEnvVar (name : String)
deriving DecidableEq

/-- Heterogeneous error type standing for `anyhow::Error` in `main` and
`write_formatted_output`: either a `SnowflakeMapperError`, a raw
`std::io::Error` propagated by a bare question mark, or a serde error. -/
inductive AppError where
  | mapper (e : SnowflakeMapperError)
  | io (msg : String)
  | serde (msg : String)
deriving DecidableEq

instance exceptDecEq {ε α : Type} [DecidableEq ε] [DecidableEq α] : DecidableEq (Except ε α) :=
  fun a b =>
    match a, b with
    | .ok x, .ok y => if h : x = y then isTrue (by rw [h]) else isFalse (by intro hc; cases hc; exact h rfl)
    | .error x, .error y => if h : x = y then isTrue (by rw [h]) else isFalse (by intro hc; cases hc; exact h rfl)
    | .ok _, .error _ => isFalse (by intro hc; cases hc)
    | .error _, .ok _ => isFalse (by intro hc; cases hc)

/-- Mirrors `ColumnInfo` (src/main.rs lines 64-72); `i32` is embedded as `Int`,
the range discipline lives in `parseI32`. -/
structure ColumnInfo where
  name : String
  data_type : String
  is_nullable : Bool
  character_maximum_length : Option Int
  numeric_precision : Option Int
  numeric_scale : Option Int
deriving DecidableEq

/-- Mirrors `TableInfo` (src/main.rs lines 74-80). -/
structure TableInfo where
  database_name : String
  schema_name : String
  table_name : String
  columns : List ColumnInfo
deriving DecidableEq

/-- Mirrors `WarehouseInfo` (src/main.rs lines 89-95). -/
structure WarehouseInfo where
  name : String
  size : String
  state : String
  type_ : String
deriving DecidableEq

/-- A Snowflake result row, embedded as the typed accessor the code uses:
`row.get::<Option<String>>(column)` returns `Ok(Some v)`, `Ok(None)` (SQL null)
or a connector error. -/
def SnowflakeRow : Type := String → Except String (Option String)

/-- Mirrors `SnowflakeMapper::get_value_from_row` (src/main.rs lines 186-195). -/
def get_value_from_row (row : SnowflakeRow) (column : String) :
    Except SnowflakeMapperError String :=
  match row column with
  | .ok (some value) => .ok value
  | .ok none => .ok ""
  | .error e => .error (.ColumnError column e)

/-- Value of an unsigned ASCII digit string, most significant digit first. -/
def digitsVal (l : List Char) : Nat := l.foldl (fun a c => a * 10 + (c.toNat - 48)) 0

/-- Mathematical integer denoted by a string in the syntax accepted by Rust's
`str::parse::<i32>`: one optional sign followed by at least one ASCII digit,
with no range restriction. -/
def intDenote (s : String) : Option Int :=
  let p : Bool × List Char :=
    match s.data with
    | '-' :: rest => (true, rest)
    | '+' :: rest => (false, rest)
    | l => (false, l)
  if p.2 ≠ [] ∧ p.2.all (fun c => c.isDigit) then
    some (if p.1 then -(digitsVal p.2 : Int) else (digitsVal p.2 : Int))
  else none

/-- Mirrors Rust's `value.parse::<i32>()`: the denoted integer when the string
is well formed and the value fits in a 32-bit signed integer, `none` otherwise
(`none` stands for `ParseIntError`). -/
def parseI32 (s : String) : Option Int :=
  match intDenote s with
  | none => none
  | some n => if -(2 ^ 31) ≤ n ∧ n ≤ 2 ^ 31 - 1 then some n else none

/-- Mirrors `SnowflakeMapper::get_i32_from_row` (src/main.rs lines 197-213):
`Ok(Some(v))` with `v` non-empty is parsed, `Ok(None)` and `Ok(Some(""))`
decode to `none`, an accessor error becomes a `ColumnError`. -/
def get_i32_from_row (row : SnowflakeRow) (column : String) :
    Except SnowflakeMapperError (Option Int) :=
  match row column with
  | .ok (some value) =>
    if value.isEmpty then .ok none
    else
      match parseI32 value with
      | some n => .ok (some n)
      | none => .error (.ColumnError column ("Failed to parse as i32: " ++ value))
  | .ok none => .ok none
  | .error e => .error (.ColumnError column e)

/-- Char-level model of Rust's `u8::to_ascii_lowercase`. -/
def toAsciiLower (c : Char) : Char :=
  if 'A' ≤ c ∧ c ≤ 'Z' then Char.ofNat (c.toNat + 32) else c

/-- Mirrors Rust's `str::eq_ignore_ascii_case`. -/
def eqIgnoreAsciiCase (a b : String) : Bool :=
  a.data.map toAsciiLower == b.data.map toAsciiLower

/-- Mirrors the `ColumnInfo` construction in the row loop of
`get_tables_for_database` (src/main.rs lines 327-334), field getters in
source order. -/
def decode_column_info (row : SnowflakeRow) : Except SnowflakeMapperError ColumnInfo :=
  match get_value_from_row row "column_name" with
  | .error e => .error e
  | .ok name =>
    match get_value_from_row row "data_type" with
    | .error e => .error e
    | .ok data_type =>
      match get_value_from_row row "is_nullable" with
      | .error e => .error e
      | .ok is_nullable_raw =>
        match get_i32_from_row row "character_maximum_length" with
        | .error e => .error e
        | .ok character_maximum_length =>
          match get_i32_from_row row "numeric_precision" with
          | .error e => .error e
          | .ok numeric_precision =>
            match get_i32_from_row row "numeric_scale" with
            | .error e => .error e
            | .ok numeric_scale =>
              .ok ⟨name, data_type, eqIgnoreAsciiCase is_nullable_raw "YES",
                   character_maximum_length, numeric_precision, numeric_scale⟩

/-- One raw catalog row as produced by the information-schema query; the three
numeric source fields may be SQL null (`none`).  The name fields are plain
strings: a null there decodes to `""` exactly as `""` itself does, so nothing
is lost. -/
structure RowData where
  table_schema : String
  table_name : String
  column_name : String
  data_type : String
  is_nullable : String
  character_maximum_length : Option String
  numeric_precision : Option String
  numeric_scale : Option String
deriving DecidableEq

/-- The row accessor for a `RowData`: every typed access the code performs
succeeds with the stored value. -/
def mkRow (r : RowData) : SnowflakeRow := fun column =>
  if column = "table_schema" then .ok (some r.table_schema)
  else if column = "table_name" then .ok (some r.table_name)
  else if column = "column_name" then .ok (some r.column_name)
  else if column = "data_type" then .ok (some r.data_type)
  else if column = "is_nullable" then .ok (some r.is_nullable)
  else if column = "character_maximum_length" then .ok r.character_maximum_length
  else if column = "numeric_precision" then .ok r.numeric_precision
  else if column = "numeric_scale" then .ok r.numeric_scale
  else .error "unknown column"

/-- The grouping key of a raw row: `(table_schema, table_name)`. -/
def rkey (r : RowData) : String × String := (r.table_schema, r.table_name)

/-- The grouping key of an aggregated table: `(schema_name, table_name)`. -/
def tkey (t : TableInfo) : String × String := (t.schema_name, t.table_name)

/-- The row loop of `get_tables_for_database` (src/main.rs lines 305-340):
`tables` is the output accumulator, `current` the open table accumulator;
closing pushes `current` onto `tables`. -/
def agg_rows (database : String) :
    List SnowflakeRow → List TableInfo → Option TableInfo →
    Except SnowflakeMapperError (List TableInfo)
  | [], tables, current => .ok (tables ++ current.toList)
  | row :: rest, tables, current =>
    match get_value_from_row row "table_schema" with
    | .error e => .error e
    | .ok schema_name =>
      match get_value_from_row row "table_name" with
      | .error e => .error e
      | .ok table_name =>
        match (if (match current with
                   | some t => t.schema_name != schema_name || t.table_name != table_name
                   | none => true) then
                 (tables ++ current.toList, some (TableInfo.mk database schema_name table_name []))
               else (tables, current)) with
        | (tables2, some t) =>
          match decode_column_info row with
          | .error e => .error e
          | .ok col => agg_rows database rest tables2 (some { t with columns := t.columns ++ [col] })
        | (tables2, none) => agg_rows database rest tables2 none

/-- Mirrors `get_tables_for_database` (src/main.rs lines 290-343) applied to
the ordered row sequence returned by the information-schema query. -/
def get_tables_for_database (database : String) (rows : List SnowflakeRow) :
    Except SnowflakeMapperError (List TableInfo) :=
  agg_rows database rows [] none

/-- Warehouse-name selection inside `set_warehouse` (src/main.rs lines 242-248):
case-insensitive membership of the requested name, else the hardcoded fallback. -/
def target_warehouse (warehouse : String) (warehouse_names : List String) : String :=
  if warehouse_names.any (fun w => eqIgnoreAsciiCase w warehouse) then warehouse
  else "COMPUTE_WH"

/-- Mirrors `set_warehouse` (src/main.rs lines 233-258).  `list_result` is the
outcome of `list_warehouses`, `exec` the outcome of `session.query` per SQL
text; on success the activated warehouse name is returned. -/
def set_warehouse (warehouse : String)
    (list_result : Except SnowflakeMapperError (List WarehouseInfo))
    (exec : String → Except String Unit) : Except SnowflakeMapperError String :=
  match list_result with
  | .error e => .error e
  | .ok warehouses =>
    let target := target_warehouse warehouse (warehouses.map (fun w => w.name))
    match exec ("USE WAREHOUSE \"" ++ target ++ "\"") with
    | .ok _ => .ok target
    | .error e => .error (.QueryError ("Failed to set warehouse: " ++ e))

/-- Index of the last '.' in a character list, if any. -/
def lastDotIdx : List Char → Option Nat
  | [] => none
  | c :: cs =>
    match lastDotIdx cs with
    | some i => some (i + 1)
    | none => if c = '.' then some 0 else none

/-- Rust's `Path::file_stem` on a single-component file name: everything
before the final '.', except that a leading '.' with no other dot yields the
whole name. -/
def rust_file_stem (name : String) : String :=
  match lastDotIdx name.data with
  | none => name
  | some i => if i = 0 then name else String.mk (name.data.take i)

/-- Rust's `Path::with_extension` on a single-component file name: the file
stem with the new extension appended (the stem alone for an empty extension). -/
def rust_with_extension (name ext : String) : String :=
  if ext.isEmpty then rust_file_stem name else rust_file_stem name ++ "." ++ ext

/-- Mirrors `args.output_dir.join(&db.name).with_extension("json")`
(src/main.rs lines 429-431) for database names without a path separator. -/
def output_path (output_dir db_name : String) : String :=
  output_dir ++ "/" ++ rust_with_extension db_name "json"

/-- Outcome record for one `with_retry` run: the returned value (with `none`
standing for the unreachable `last_error.unwrap()` panic on an empty attempt
range), the number of operation calls made, and the number of sleeps taken. -/
structure RetryTrace (ε α : Type) where
  result : Option (Except ε α)
  calls : Nat
  sleeps : Nat
deriving DecidableEq

/-- The body of the `for attempt in 0..=retries` loop of `with_retry`
(src/main.rs lines 134-155): `remaining` iterations left, `attempt` the
current attempt number, `lastErr` the last stored error.  A sleep is taken
before every attempt with a positive number.  `op n` is the outcome of the
n-th call of the fallible operation. -/
def retry_from {ε α : Type} (op : Nat → Except ε α) :
    Nat → Nat → Option ε → RetryTrace ε α
  | 0, _, lastErr => ⟨lastErr.map Except.error, 0, 0⟩
  | remaining + 1, attempt, _ =>
    match op attempt with
    | .ok v => ⟨some (.ok v), 1, if attempt > 0 then 1 else 0⟩
    | .error e =>
      let t := retry_from op remaining (attempt + 1) (some e)
      ⟨t.result, t.calls + 1, t.sleeps + (if attempt > 0 then 1 else 0)⟩

/-- Mirrors `with_retry` (src/main.rs lines 134-155) with `retries` the
configured `--retries` value. -/
def with_retry {ε α : Type} (retries : Nat) (op : Nat → Except ε α) : RetryTrace ε α :=
  retry_from op (retries + 1) 0 none

/-- Observable session effects used to state the `connect` behavior. -/
inductive Effect where
  | createSession
  | query (sql : String)
deriving DecidableEq

/-- The mapper's connection state: whether `self.client`/`self.session` are
set, plus the log of session effects performed so far. -/
structure MapperState where
  connected : Bool
  log : List Effect
deriving DecidableEq

/-- Mirrors `ensure_connected` (src/main.rs lines 157-180) on its success
path: a client and session are created only when none exist yet. -/
def ensure_connected (s : MapperState) : MapperState :=
  if s.connected then s else { connected := true, log := s.log ++ [Effect.createSession] }

/-- The session statements issued by `set_warehouse` (src/main.rs lines
233-258): the `SHOW WAREHOUSES` listing, then `USE WAREHOUSE` on the selected
target; `warehouse_names` is what the listing returns. -/
def set_warehouse_effects (requested : String) (warehouse_names : List String) : List Effect :=
  [Effect.query "SHOW WAREHOUSES",
   Effect.query ("USE WAREHOUSE \"" ++ target_warehouse requested warehouse_names ++ "\"")]

/-- The session statement issued by `set_role` (src/main.rs lines 260-270). -/
def set_role_effects (role : String) : List Effect :=
  [Effect.query ("USE ROLE \"" ++ role ++ "\"")]

/-- Mirrors `connect` (src/main.rs lines 218-231) on its success path:
`ensure_connected`, then unconditionally `set_warehouse`, then `set_role`
when a role is configured. -/
def connect (warehouse : String) (role : Option String) (warehouse_names : List String)
    (s : MapperState) : MapperState :=
  let s1 := ensure_connected s
  let s2 : MapperState := { s1 with log := s1.log ++ set_warehouse_effects warehouse warehouse_names }
  match role with
  | some r => { s2 with log := s2.log ++ set_role_effects r }
  | none => s2

/-- Number of session creations in an effect log. -/
def countCreate (log : List Effect) : Nat :=
  log.countP (fun e => match e with | Effect.createSession => true | Effect.query _ => false)

/-- Mirrors `write_formatted_output` (src/main.rs lines 366-374).
`serialize` is the `serde_json::to_string_pretty` outcome, `create_dir_all`
and `fsWrite` the filesystem call outcomes; note that only the `fs::write`
failure is wrapped into `OutputError`, the directory-creation failure is
propagated by a bare question mark. -/
def write_formatted_output (path : String) (parent : Option String)
    (serialize : Except String String)
    (create_dir_all : String → Except String Unit)
    (fsWrite : String → String → Except String Unit) : Except AppError Unit :=
  match serialize with
  | .error e => .error (.serde e)
  | .ok json =>
    match (match parent with
           | some p => create_dir_all p
           | none => .ok ()) with
    | .error e => .error (.io e)
    | .ok _ =>
      match fsWrite path json with
      | .error e => .error (.mapper (.OutputError ("Failed to write to " ++ path ++ ": " ++ e)))
      | .ok _ => .ok ()

/-- Whether an `AppError` is the `OutputError` variant. -/
def isOutputErrorB : AppError → Bool
  | .mapper (.OutputError _) => true
  | _ => false

/-- Whether an `Except` value is a success. -/
def isOkE {ε α : Type} : Except ε α → Bool
  | .ok _ => true
  | .error _ => false

/-- The per-database loop of `main` (src/main.rs lines 424-450): for each
database in order, fetch its tables (`fetch`), on success write the output
file (`write`); on either failure, continue when `--skip-failed-tables` is
set, otherwise return the error.  The first component collects the databases
whose output file was successfully written, the second is `main`'s return
value for this loop. -/
def process_databases (skip_failed_tables : Bool)
    (fetch : String → Except AppError (List TableInfo))
    (write : String → Except AppError Unit) :
    List String → List String × Except AppError Unit
  | [] => ([], .ok ())
  | db :: rest =>
    match fetch db with
    | .ok _ =>
      match write db with
      | .ok _ =>
        let p := process_databases skip_failed_tables fetch write rest
        (db :: p.1, p.2)
      | .error e =>
        if skip_failed_tables then process_databases skip_failed_tables fetch write rest
        else ([], .error e)
    | .error e =>
      if skip_failed_tables then process_databases skip_failed_tables fetch write rest
      else ([], .error e)

lemma mkRow_table_schema (r : RowData) :
    get_value_from_row (mkRow r) "table_schema" = .ok r.table_schema := rfl

lemma mkRow_table_name (r : RowData) :
    get_value_from_row (mkRow r) "table_name" = .ok r.table_name := rfl

lemma mkRow_column_name (r : RowData) :
    get_value_from_row (mkRow r) "column_name" = .ok r.column_name := rfl

lemma mkRow_data_type (r : RowData) :
    get_value_from_row (mkRow r) "data_type" = .ok r.data_type := rfl

lemma mkRow_is_nullable (r : RowData) :
    get_value_from_row (mkRow r) "is_nullable" = .ok r.is_nullable := rfl

lemma mkRow_cml (r : RowData) :
    mkRow r "character_maximum_length" = .ok r.character_maximum_length := rfl

lemma intDenote_ne_nil (s : String) (n : Int) (h : intDenote s = some n) : s.data ≠ [] := by
  intro hnil
  rw [intDenote] at h
  rw [hnil] at h
  simp at h

lemma intDenote_isEmpty_false (s : String) (n : Int) (h : intDenote s = some n) :
    s.isEmpty = false := by
  have hd := intDenote_ne_nil s n h
  cases hs : s.isEmpty
  · rfl
  · exfalso
    apply hd
    have h0 : s = "" := (String.isEmpty_iff s).mp hs
    rw [h0]

/-- C6: for each of the three numeric column fields, decoding a null or
empty source value yields absent, a non-empty integer string like "10"
yields the parsed value, and a non-empty non-integer string like "abc"
fails with a `ColumnError` naming the offending column and the parse
failure; `get_i32_from_row` is the decoder the code applies to exactly
the fields `character_maximum_length`, `numeric_precision` and
`numeric_scale`. -/
theorem numeric_field_decode (row : SnowflakeRow) (column : String) (v : String) (r : RowData) :
    (row column = .ok none → get_i32_from_row row column = .ok none) ∧
    (row column = .ok (some "") → get_i32_from_row row column = .ok none) ∧
    (row column = .ok (some "10") → get_i32_from_row row column = .ok (some 10)) ∧
    (row column = .ok (some v) → v.isEmpty = false → parseI32 v = none →
      get_i32_from_row row column =
        .error (.ColumnError column ("Failed to parse as i32: " ++ v))) ∧
    parseI32 "abc" = none ∧ parseI32 "10" = some 10 ∧
    (r.character_maximum_length = some "abc" →
      decode_column_info (mkRow r) =
        .error (.ColumnError "character_maximum_length" ("Failed to parse as i32: " ++ "abc"))) := by
  refine ⟨?_, ?_, ?_, ?_, by decide, by decide, ?_⟩
  · intro h
    simp only [get_i32_from_row, h]
  · intro h
    simp only [get_i32_from_row, h]
    simp [show ("" : String).isEmpty = true from rfl]
  · intro h
    simp only [get_i32_from_row, h]
    simp [show ("10" : String).isEmpty = false from by decide,
      show parseI32 "10" = some 10 from by decide]
  · intro h h2 h3
    simp only [get_i32_from_row, h, h2, h3]
    simp
  · intro h
    have h1 : mkRow r "character_maximum_length" = .ok (some "abc") := by
      rw [mkRow_cml, h]
    simp only [decode_column_info, mkRow_column_name, mkRow_data_type, mkRow_is_nullable,
      get_i32_from_row, h1]
    simp [show ("abc" : String).isEmpty = false from by decide,
      show parseI32 "abc" = none from by decide]

/-- A row accessor whose every field reads as the string "10". -/
def rowTen : SnowflakeRow := fun _ => .ok (some "10")

/-- A raw row whose `character_maximum_length` field holds the non-numeric
string "abc". -/
def exRowAbc : RowData := ⟨"S", "T", "C", "TEXT", "YES", some "abc", none, none⟩

theorem numeric_field_decode_witness :
    get_i32_from_row rowTen "character_maximum_length" = .ok (some 10) ∧
    decode_column_info (mkRow exRowAbc) =
      .error (.ColumnError "character_maximum_length" ("Failed to parse as i32: " ++ "abc")) :=
  ⟨(numeric_field_decode rowTen "character_maximum_length" "x" exRowAbc).2.2.1 rfl,
   (numeric_field_decode rowTen "character_maximum_length" "x" exRowAbc).2.2.2.2.2.2 rfl⟩

/-- C10: numeric decoding parses into a 32-bit signed integer: a well-formed
integer string outside the i32 range fails the decode with a `ColumnError`
naming the column, while every in-range integer string, negative values
included, decodes to the parsed value. -/
theorem numeric_decode_i32_range (row : SnowflakeRow) (column : String) (s : String) (n : Int) :
    (row column = .ok (some s) → intDenote s = some n →
      (n < -(2 ^ 31) ∨ 2 ^ 31 - 1 < n) →
      get_i32_from_row row column =
        .error (.ColumnError column ("Failed to parse as i32: " ++ s))) ∧
    (row column = .ok (some s) → intDenote s = some n →
      -(2 ^ 31) ≤ n → n ≤ 2 ^ 31 - 1 →
      get_i32_from_row row column = .ok (some n)) ∧
    parseI32 "2147483648" = none ∧
    parseI32 "-2147483649" = none ∧
    parseI32 "2147483647" = some 2147483647 ∧
    parseI32 "-2147483648" = some (-2147483648) ∧
    parseI32 "-5" = some (-5) := by
  refine ⟨?_, ?_, by decide, by decide, by decide, by decide, by decide⟩
  · intro h hd hrange
    have he := intDenote_isEmpty_false s n hd
    have hp : parseI32 s = none := by
      simp only [parseI32, hd]
      rcases hrange with hlt | hgt
      · rw [if_neg]
        intro hand
        exact absurd hand.1 (not_le.mpr hlt)
      · rw [if_neg]
        intro hand
        exact absurd hand.2 (not_le.mpr hgt)
    simp only [get_i32_from_row, h, he, hp]
    simp
  · intro h hd h1 h2
    have he := intDenote_isEmpty_false s n hd
    have hp : parseI32 s = some n := by
      simp only [parseI32, hd]
      rw [if_pos ⟨h1, h2⟩]
    simp only [get_i32_from_row, h, he, hp]
    simp

/-- A row accessor whose every field reads as an out-of-range integer string. -/
def rowBig : SnowflakeRow := fun _ => .ok (some "2147483648")

/-- A row accessor whose every field reads as the string "-5". -/
def rowNegFive : SnowflakeRow := fun _ => .ok (some "-5")

theorem numeric_decode_i32_range_witness :
    get_i32_from_row rowBig "numeric_precision" =
      .error (.ColumnError "numeric_precision" ("Failed to parse as i32: " ++ "2147483648")) ∧
    get_i32_from_row rowNegFive "numeric_scale" = .ok (some (-5)) :=
  ⟨(numeric_decode_i32_range rowBig "numeric_precision" "2147483648" 2147483648).1
      rfl (by decide) (Or.inr (by decide)),
   (numeric_decode_i32_range rowNegFive "numeric_scale" "-5" (-5)).2.1
      rfl (by decide) (by decide) (by decide)⟩

/-- C3: on `set_warehouse`, a case-insensitive membership check of the
requested name against the listed warehouse names selects the requested
name itself when present and the hardcoded `COMPUTE_WH` when absent, and
a missing requested warehouse alone never produces an error. -/
theorem warehouse_selection (warehouse : String) (warehouses : List WarehouseInfo)
    (exec : String → Except String Unit) :
    ((warehouses.map (fun w => w.name)).any (fun w => eqIgnoreAsciiCase w warehouse) = true →
      target_warehouse warehouse (warehouses.map (fun w => w.name)) = warehouse ∧
      (exec ("USE WAREHOUSE \"" ++ warehouse ++ "\"") = .ok () →
        set_warehouse warehouse (.ok warehouses) exec = .ok warehouse)) ∧
    ((warehouses.map (fun w => w.name)).any (fun w => eqIgnoreAsciiCase w warehouse) = false →
      target_warehouse warehouse (warehouses.map (fun w => w.name)) = "COMPUTE_WH" ∧
      (exec ("USE WAREHOUSE \"" ++ "COMPUTE_WH" ++ "\"") = .ok () →
        set_warehouse warehouse (.ok warehouses) exec = .ok "COMPUTE_WH")) ∧
    ((∀ q, exec q = .ok ()) →
      set_warehouse warehouse (.ok warehouses) exec =
        .ok (target_warehouse warehouse (warehouses.map (fun w => w.name)))) ∧
    eqIgnoreAsciiCase "My_WH" "my_wh" = true := by
  refine ⟨?_, ?_, ?_, by decide⟩
  · intro hmem
    have ht : target_warehouse warehouse (warehouses.map (fun w => w.name)) = warehouse := by
      rw [target_warehouse, if_pos hmem]
    refine ⟨ht, ?_⟩
    intro hexec
    simp only [set_warehouse, ht, hexec]
  · intro hmem
    have ht : target_warehouse warehouse (warehouses.map (fun w => w.name)) = "COMPUTE_WH" := by
      rw [target_warehouse]
      rw [hmem]
      simp
    refine ⟨ht, ?_⟩
    intro hexec
    simp only [set_warehouse, ht, hexec]
  · intro hall
    simp only [set_warehouse, hall]

/-- A one-element warehouse list whose entry is named MY_WH. -/
def exWarehouses : List WarehouseInfo := [⟨"MY_WH", "X-Small", "STARTED", "STANDARD"⟩]

/-- A statement executor that always succeeds. -/
def execOk : String → Except String Unit := fun _ => .ok ()

theorem warehouse_selection_witness :
    set_warehouse "my_wh" (.ok exWarehouses) execOk = .ok "my_wh" ∧
    set_warehouse "OTHER_WH" (.ok exWarehouses) execOk = .ok "COMPUTE_WH" :=
  ⟨((warehouse_selection "my_wh" exWarehouses execOk).1 (by decide)).2 rfl,
   ((warehouse_selection "OTHER_WH" exWarehouses execOk).2.1 (by decide)).2 rfl⟩

/-- C8 counterexample: for the database name MY.DB, the source's
`with_extension("json")` replaces the name's final dot-segment, so the file
is written at output/MY.json and not at output/MY.DB.json as the claim
states for names containing a dot. -/
theorem output_path_dot_cex :
    output_path "output" "MY.DB" = "output/MY.json" ∧
    output_path "output" "MY.DB" ≠ "output" ++ "/" ++ "MY.DB" ++ ".json" := by
  refine ⟨by decide, by decide⟩

/-- C8 (amended): the output artifact path is the output directory joined
with `file_stem(name) ++ ".json"`; this equals `name ++ ".json"` under the
output directory exactly for names whose file stem is the whole name, i.e.
names with no '.' after their first character, while a name with an embedded
'.' has its final dot-segment replaced by "json". -/
theorem output_path_spec (dir name : String) :
    output_path dir name = dir ++ "/" ++ rust_file_stem name ++ ".json" ∧
    (rust_file_stem name = name →
      output_path dir name = dir ++ "/" ++ name ++ ".json") := by
  have h1 : output_path dir name = dir ++ "/" ++ rust_file_stem name ++ ".json" := by
    simp [output_path, rust_with_extension, String.append_assoc,
      show ("json" : String).isEmpty = false from by decide,
      show ("." ++ "json" : String) = ".json" from rfl]
  exact ⟨h1, fun h => by rw [h1, h]⟩

theorem output_path_spec_witness :
    output_path "output" "MYDB" = "output" ++ "/" ++ "MYDB" ++ ".json" :=
  (output_path_spec "output" "MYDB").2 (by decide)

/-- C9 counterexample: when directory creation fails, `write_formatted_output`
returns the raw propagated I/O error, not an `OutputError`, contradicting the
claim that a directory-creation failure surfaces as an `OutputError` carrying
the path. -/
theorem write_output_mkdir_cex :
    write_formatted_output "output/DB.json" (some "output") (.ok "[]")
      (fun _ => .error "permission denied") (fun _ _ => .ok ()) =
      .error (.io "permission denied") ∧
    isOutputErrorB (.io "permission denied") = false :=
  ⟨rfl, rfl⟩

/-- C9 (amended): a failure to write the file surfaces as an `OutputError`
carrying the path and the underlying cause, but a failure to create the
intermediate directories propagates as the raw underlying I/O error, not
wrapped in `OutputError` and not naming the path. -/
theorem write_output_error_spec (path : String) (parent : Option String) (json : String)
    (mk : String → Except String Unit) (fw : String → String → Except String Unit)
    (e : String) :
    (∀ p, parent = some p → mk p = .error e →
      write_formatted_output path parent (.ok json) mk fw = .error (.io e) ∧
      isOutputErrorB (.io e) = false) ∧
    ((parent = none ∨ ∃ p, parent = some p ∧ mk p = .ok ()) → fw path json = .error e →
      write_formatted_output path parent (.ok json) mk fw =
        .error (.mapper (.OutputError ("Failed to write to " ++ path ++ ": " ++ e))) ∧
      isOutputErrorB (.mapper (.OutputError ("Failed to write to " ++ path ++ ": " ++ e))) = true) ∧
    ((parent = none ∨ ∃ p, parent = some p ∧ mk p = .ok ()) → fw path json = .ok () →
      write_formatted_output path parent (.ok json) mk fw = .ok ()) := by
  refine ⟨?_, ?_, ?_⟩
  · intro p hp hmk
    rw [hp]
    simp only [write_formatted_output, hmk]
    exact ⟨by trivial, by trivial⟩
  · intro hpar hfw
    rcases hpar with hnone | ⟨p, hp, hmk⟩
    · rw [hnone]
      simp only [write_formatted_output, hfw]
      exact ⟨by trivial, by trivial⟩
    · rw [hp]
      simp only [write_formatted_output, hmk, hfw]
      exact ⟨by trivial, by trivial⟩
  · intro hpar hfw
    rcases hpar with hnone | ⟨p, hp, hmk⟩
    · rw [hnone]
      simp only [write_formatted_output, hfw]
    · rw [hp]
      simp only [write_formatted_output, hmk, hfw]

theorem write_output_error_spec_witness :
    write_formatted_output "output/DB.json" (some "output") (.ok "[]")
      (fun _ => .ok ()) (fun _ _ => .error "disk full") =
      .error (.mapper (.OutputError ("Failed to write to " ++ "output/DB.json" ++ ": " ++ "disk full"))) :=
  ((write_output_error_spec "output/DB.json" (some "output") "[]"
      (fun _ => .ok ()) (fun _ _ => .error "disk full") "disk full").2.1
    (Or.inr ⟨"output", rfl, rfl⟩) rfl).1

/-- C7 counterexample: a second call to `connect` on an already-connected
state is not a no-op — it re-issues the warehouse and role statements, so
the resulting state differs from the state after the first call. -/
theorem connect_second_call_cex :
    connect "WH" (some "SALES") ["WH"] (connect "WH" (some "SALES") ["WH"] ⟨false, []⟩) ≠
      connect "WH" (some "SALES") ["WH"] ⟨false, []⟩ := by
  decide

/-- C7 (amended): `connect` establishes at most one underlying session:
on an already-connected state `ensure_connected` is a no-op and no new
session is created; however a repeated `connect` does re-issue the
warehouse-selection statements and, when a role is configured, the role
statement, so it is not free of observable effects. -/
theorem connect_session_unique (warehouse : String) (role : Option String)
    (names : List String) (s : MapperState) (h : s.connected = true) :
    ensure_connected s = s ∧
    (connect warehouse role names s).connected = true ∧
    countCreate (connect warehouse role names s).log = countCreate s.log ∧
    (connect warehouse role names s).log =
      s.log ++ set_warehouse_effects warehouse names ++ role.elim [] set_role_effects ∧
    countCreate (connect warehouse role names ⟨false, []⟩).log = 1 := by
  have hens : ensure_connected s = s := by
    simp [ensure_connected, h]
  refine ⟨hens, ?_, ?_, ?_, ?_⟩
  · cases role <;> simp [connect, hens, h]
  · cases role <;>
      simp [connect, hens, countCreate, set_warehouse_effects, set_role_effects,
        List.countP_append, List.countP_cons]
  · cases role <;> simp [connect, hens, set_warehouse_effects, set_role_effects, Option.elim]
  · cases role <;>
      simp [connect, ensure_connected, countCreate, set_warehouse_effects, set_role_effects,
        List.countP_append, List.countP_cons]

theorem connect_session_unique_witness :
    ensure_connected ⟨true, [Effect.createSession]⟩ = ⟨true, [Effect.createSession]⟩ ∧
    (connect "WH" (some "SALES") ["WH"] ⟨true, [Effect.createSession]⟩).connected = true ∧
    countCreate (connect "WH" (some "SALES") ["WH"] ⟨true, [Effect.createSession]⟩).log =
      countCreate (MapperState.mk true [Effect.createSession]).log ∧
    (connect "WH" (some "SALES") ["WH"] ⟨true, [Effect.createSession]⟩).log =
      [Effect.createSession] ++ set_warehouse_effects "WH" ["WH"] ++
        (some "SALES").elim [] set_role_effects ∧
    countCreate (connect "WH" (some "SALES") ["WH"] ⟨false, []⟩).log = 1 :=
  connect_session_unique "WH" (some "SALES") ["WH"] ⟨true, [Effect.createSession]⟩ rfl

lemma retry_from_calls_le {ε α : Type} (op : Nat → Except ε α) :
    ∀ r a le, (retry_from op r a le).calls ≤ r := by
  intro r
  induction r with
  | zero => intro a le; simp [retry_from]
  | succ n ih =>
    intro a le
    simp only [retry_from]
    cases hop : op a with
    | ok v => simp
    | error e =>
      simp only []
      exact Nat.succ_le_succ (ih (a + 1) (some e))

lemma retry_from_result_isSome {ε α : Type} (op : Nat → Except ε α) :
    ∀ r a e, ((retry_from op r a (some e)).result).isSome = true := by
  intro r
  induction r with
  | zero => intro a e; simp [retry_from]
  | succ n ih =>
    intro a e
    simp only [retry_from]
    cases hop : op a with
    | ok v => simp
    | error e2 => exact ih (a + 1) e2

lemma retry_from_all_fail_pos {ε α : Type} (op : Nat → Except ε α) (errf : Nat → ε) :
    ∀ r a le, 1 ≤ a → (∀ j, j < r → op (a + j) = .error (errf (a + j))) →
    retry_from op r a (some le) =
      ⟨some (.error (if r = 0 then le else errf (a + r - 1))), r, r⟩ := by
  intro r
  induction r with
  | zero => intro a le _ _; simp [retry_from]
  | succ n ih =>
    intro a le ha hall
    have h0 : op a = .error (errf a) := by
      have h1 := hall 0 (Nat.succ_pos n)
      rwa [Nat.add_zero] at h1
    have hall2 : ∀ j, j < n → op (a + 1 + j) = .error (errf (a + 1 + j)) := by
      intro j hj
      have h3 := hall (j + 1) (by omega)
      have he : a + (j + 1) = a + 1 + j := by omega
      rwa [he] at h3
    simp only [retry_from, h0]
    rw [ih (a + 1) (errf a) (by omega) hall2]
    have hsel : (if n = 0 then errf a else errf (a + 1 + n - 1)) = errf (a + (n + 1) - 1) := by
      cases n with
      | zero => simp
      | succ m =>
        rw [if_neg (Nat.succ_ne_zero m)]
        congr 1
        omega
    rw [if_neg (Nat.succ_ne_zero n), hsel, if_pos (by omega : a > 0)]

lemma retry_from_success_pos {ε α : Type} (op : Nat → Except ε α) (errf : Nat → ε) (v : α) :
    ∀ k r a le, 1 ≤ a → k < r → (∀ j, j < k → op (a + j) = .error (errf (a + j))) →
    op (a + k) = .ok v →
    retry_from op r a (some le) = ⟨some (.ok v), k + 1, k + 1⟩ := by
  intro k
  induction k with
  | zero =>
    intro r a le ha hr _ hok
    rw [Nat.add_zero] at hok
    cases r with
    | zero => omega
    | succ m =>
      simp only [retry_from, hok]
      simp [if_pos (by omega : a > 0)]
  | succ m ih =>
    intro r a le ha hr hfail hok
    have h0 : op a = .error (errf a) := by
      have h1 := hfail 0 (Nat.succ_pos m)
      rwa [Nat.add_zero] at h1
    cases r with
    | zero => omega
    | succ q =>
      have hfail2 : ∀ j, j < m → op (a + 1 + j) = .error (errf (a + 1 + j)) := by
        intro j hj
        have h3 := hfail (j + 1) (by omega)
        have he : a + (j + 1) = a + 1 + j := by omega
        rwa [he] at h3
      have hok2 : op (a + 1 + m) = .ok v := by
        have he : a + (m + 1) = a + 1 + m := by omega
        rwa [he] at hok
      simp only [retry_from, h0]
      rw [ih q (a + 1) (errf a) (by omega) (by omega) hfail2 hok2]
      simp [if_pos (by omega : a > 0)]

lemma with_retry_first_ok {ε α : Type} (op : Nat → Except ε α) (v : α) (n : Nat)
    (h : op 0 = .ok v) : with_retry n op = ⟨some (.ok v), 1, 0⟩ := by
  simp [with_retry, retry_from, h]

lemma with_retry_all_fail {ε α : Type} (op : Nat → Except ε α) (errf : Nat → ε) (n : Nat)
    (h : ∀ j, j ≤ n → op j = .error (errf j)) :
    with_retry n op = ⟨some (.error (errf n)), n + 1, n⟩ := by
  have h0 : op 0 = .error (errf 0) := h 0 (Nat.zero_le n)
  have hall : ∀ j, j < n → op (1 + j) = .error (errf (1 + j)) := by
    intro j hj
    exact h (1 + j) (by omega)
  simp only [with_retry, retry_from, h0]
  rw [retry_from_all_fail_pos op errf n 1 (errf 0) (by omega) hall]
  have hsel : (if n = 0 then errf 0 else errf (1 + n - 1)) = errf n := by
    cases n with
    | zero => simp
    | succ m =>
      rw [if_neg (Nat.succ_ne_zero m)]
      congr 1
      omega
  rw [hsel]
  simp

lemma with_retry_success_at {ε α : Type} (op : Nat → Except ε α) (errf : Nat → ε) (v : α)
    (n k : Nat) (hk : k ≤ n) (hfail : ∀ j, j < k → op j = .error (errf j))
    (hok : op k = .ok v) : with_retry n op = ⟨some (.ok v), k + 1, k⟩ := by
  cases k with
  | zero => exact with_retry_first_ok op v n hok
  | succ m =>
    have h0 : op 0 = .error (errf 0) := hfail 0 (Nat.succ_pos m)
    have hfail2 : ∀ j, j < m → op (1 + j) = .error (errf (1 + j)) := by
      intro j hj
      exact hfail (1 + j) (by omega)
    have hok2 : op (1 + m) = .ok v := by
      have he : m + 1 = 1 + m := by omega
      rwa [he] at hok
    simp only [with_retry, retry_from, h0]
    rw [retry_from_success_pos op errf v m n 1 (errf 0) (by omega) (by omega) hfail2 hok2]
    simp

/-- C4: `with_retry` runs the operation at most `retries + 1` times, sleeps
only between attempts and never before the first, returns the first success
immediately, and after all attempts fail propagates the last observed error;
with `retries = 2`, failing twice then succeeding returns success after 3
calls with exactly 2 sleeps, and always failing returns the last error after
exactly 3 calls with 2 sleeps. -/
theorem with_retry_spec {ε α : Type} (n k : Nat) (op : Nat → Except ε α)
    (errf : Nat → ε) (v : α) :
    (with_retry n op).calls ≤ n + 1 ∧
    ((with_retry n op).result).isSome = true ∧
    (op 0 = .ok v → with_retry n op = ⟨some (.ok v), 1, 0⟩) ∧
    ((∀ j, j < k → op j = .error (errf j)) → k ≤ n → op k = .ok v →
      with_retry n op = ⟨some (.ok v), k + 1, k⟩) ∧
    ((∀ j, j ≤ n → op j = .error (errf j)) →
      with_retry n op = ⟨some (.error (errf n)), n + 1, n⟩) ∧
    with_retry 2 (fun i => if i < 2 then (.error i : Except Nat String) else .ok "done") =
      ⟨some (.ok "done"), 3, 2⟩ ∧
    with_retry 2 (fun i => (.error i : Except Nat String)) = ⟨some (.error 2), 3, 2⟩ := by
  refine ⟨retry_from_calls_le op (n + 1) 0 none, ?_,
    fun h => with_retry_first_ok op v n h,
    fun hf hk ho => with_retry_success_at op errf v n k hk hf ho,
    fun h => with_retry_all_fail op errf n h, by decide, by decide⟩
  · simp only [with_retry, retry_from]
    cases hop : op 0 with
    | ok w => simp
    | error e => exact retry_from_result_isSome op n 1 e

theorem with_retry_spec_witness :
    with_retry 2 (fun i => if i < 2 then (.error i : Except Nat String) else .ok "done") =
      ⟨some (.ok "done"), 3, 2⟩ :=
  (with_retry_spec 2 2 (fun i => if i < 2 then (.error i : Except Nat String) else .ok "done")
      (fun i => i) "done").2.2.2.1
    (fun j hj => by interval_cases j <;> rfl) (by omega) rfl

lemma isOkE_true {ε α : Type} (x : Except ε α) (h : isOkE x = true) : ∃ y, x = .ok y := by
  cases x with
  | ok y => exact ⟨y, rfl⟩
  | error e => simp [isOkE] at h

/-- C2: with the skip flag, the per-database loop always finishes with
success and writes exactly the databases whose fetch and write both
succeed, in list order; without the flag, the first database at which
fetch or write fails aborts the loop, propagating that failure, with
output written exactly for the databases before it, and a run with no
failures processes every database and succeeds. -/
theorem orchestrator_policy (fetch : String → Except AppError (List TableInfo))
    (write : String → Except AppError Unit) :
    (∀ dbs, (process_databases true fetch write dbs).2 = .ok () ∧
      (process_databases true fetch write dbs).1 =
        dbs.filter (fun d => isOkE (fetch d) && isOkE (write d))) ∧
    (∀ pre d post, (∀ p ∈ pre, isOkE (fetch p) = true ∧ isOkE (write p) = true) →
      (isOkE (fetch d) && isOkE (write d)) = false →
      (process_databases false fetch write (pre ++ d :: post)).1 = pre ∧
      ∃ e, (process_databases false fetch write (pre ++ d :: post)).2 = .error e ∧
        (fetch d = .error e ∨ (isOkE (fetch d) = true ∧ write d = .error e))) ∧
    (∀ dbs, (∀ p ∈ dbs, isOkE (fetch p) = true ∧ isOkE (write p) = true) →
      process_databases false fetch write dbs = (dbs, .ok ())) := by
  refine ⟨?_, ?_, ?_⟩
  · intro dbs
    induction dbs with
    | nil => exact ⟨rfl, rfl⟩
    | cons db rest ih =>
      simp only [process_databases, List.filter_cons]
      cases hf : fetch db with
      | error e => simp [isOkE, ih]
      | ok tv =>
        cases hw : write db with
        | error e => simp [isOkE, ih]
        | ok u => simp [isOkE, ih]
  · intro pre d post
    induction pre with
    | nil =>
      intro _ hbool
      simp only [List.nil_append, process_databases]
      cases hf : fetch d with
      | error e =>
        exact ⟨rfl, e, rfl, Or.inl rfl⟩
      | ok tv =>
        rw [hf] at hbool
        simp only [isOkE, Bool.true_and] at hbool
        cases hw : write d with
        | error e =>
          exact ⟨rfl, e, rfl, Or.inr ⟨by simp [hf, isOkE], rfl⟩⟩
        | ok u =>
          rw [hw] at hbool
          simp [isOkE] at hbool
    | cons p pre ih =>
      intro hpre hbool
      have hp := hpre p (List.mem_cons_self p pre)
      obtain ⟨tv, hfp⟩ := isOkE_true (fetch p) hp.1
      obtain ⟨u, hwp⟩ := isOkE_true (write p) hp.2
      have hpre2 : ∀ q ∈ pre, isOkE (fetch q) = true ∧ isOkE (write q) = true := by
        intro q hq
        exact hpre q (List.mem_cons_of_mem p hq)
      obtain ⟨h1, e, h2, h3⟩ := ih hpre2 hbool
      cases u
      simp only [List.cons_append, process_databases, hfp, hwp, List.append_eq]
      exact ⟨by rw [h1], e, h2, h3⟩
  · intro dbs hall
    induction dbs with
    | nil => rfl
    | cons db rest ih =>
      have hd := hall db (List.mem_cons_self db rest)
      obtain ⟨tv, hfd⟩ := isOkE_true (fetch db) hd.1
      obtain ⟨u, hwd⟩ := isOkE_true (write db) hd.2
      have hall2 : ∀ q ∈ rest, isOkE (fetch q) = true ∧ isOkE (write q) = true := by
        intro q hq
        exact hall q (List.mem_cons_of_mem db hq)
      cases u
      simp only [process_databases, hfd, hwd, ih hall2]

/-- A fetch oracle that fails exactly for the database named B. -/
def fetchW : String → Except AppError (List TableInfo) := fun d =>
  if d = "B" then .error (.mapper (.QueryError "boom")) else .ok []

/-- A write oracle that always succeeds. -/
def writeW : String → Except AppError Unit := fun _ => .ok ()

theorem orchestrator_policy_witness :
    (process_databases false fetchW writeW (["A"] ++ "B" :: ["C"])).1 = ["A"] ∧
    ∃ e, (process_databases false fetchW writeW (["A"] ++ "B" :: ["C"])).2 = .error e ∧
      (fetchW "B" = .error e ∨ (isOkE (fetchW "B") = true ∧ writeW "B" = .error e)) :=
  (orchestrator_policy fetchW writeW).2.1 ["A"] "B" ["C"] (by decide) (by decide)

/-- Total number of columns across a table sequence. -/
def colSum (ts : List TableInfo) : Nat := (ts.map (fun t => t.columns.length)).sum

/-- Column count of the open accumulator. -/
def curLen : Option TableInfo → Nat
  | some t => t.columns.length
  | none => 0

/-- Collapse maximal runs of equal consecutive elements to one element each. -/
def collapseRuns {α : Type} [DecidableEq α] : List α → List α
  | [] => []
  | [a] => [a]
  | a :: b :: rest => if a = b then collapseRuns (b :: rest) else a :: collapseRuns (b :: rest)

/-- The distinct elements of a list in first-appearance order. -/
def dedupKeepFirst {α : Type} [DecidableEq α] : List α → List α
  | [] => []
  | a :: l => a :: dedupKeepFirst (l.filter (fun x => decide (x ≠ a)))
termination_by l => l.length
decreasing_by
  simp only [List.length_cons]
  exact Nat.lt_succ_of_le (List.length_filter_le _ l)

/-- The order on grouping keys under which the catalog query sorts its rows:
lexicographic on `(schema_name, table_name)`. -/
def keyLe (a b : String × String) : Prop :=
  a.1 < b.1 ∨ (a.1 = b.1 ∧ a.2 ≤ b.2)

lemma keyLe_refl (a : String × String) : keyLe a a := Or.inr ⟨rfl, le_refl _⟩

lemma keyLe_trans (a b c : String × String) (h1 : keyLe a b) (h2 : keyLe b c) : keyLe a c := by
  rcases h1 with h1 | ⟨h1e, h1le⟩ <;> rcases h2 with h2 | ⟨h2e, h2le⟩
  · exact Or.inl (lt_trans h1 h2)
  · exact Or.inl (lt_of_lt_of_le h1 (le_of_eq h2e))
  · exact Or.inl (lt_of_le_of_lt (le_of_eq h1e) h2)
  · exact Or.inr ⟨h1e.trans h2e, le_trans h1le h2le⟩

lemma keyLe_antisymm (a b : String × String) (h1 : keyLe a b) (h2 : keyLe b a) : a = b := by
  rcases h1 with h1 | ⟨h1e, h1le⟩ <;> rcases h2 with h2 | ⟨h2e, h2le⟩
  · exact absurd h2 (lt_asymm h1)
  · exfalso
    rw [h2e] at h1
    exact lt_irrefl _ h1
  · exfalso
    rw [h1e] at h2
    exact lt_irrefl _ h2
  · have h12 : a.2 = b.2 := le_antisymm h1le h2le
    cases a
    cases b
    simp only at h1e h12
    rw [h1e, h12]

lemma chain'_le_all :
    ∀ (l : List (String × String)) (a), List.Chain' keyLe (a :: l) → ∀ x ∈ l, keyLe a x := by
  intro l
  induction l with
  | nil =>
    intro a _ x hx
    simp at hx
  | cons b m ih =>
    intro a hch x hx
    have hab : keyLe a b := (List.chain'_cons.mp hch).1
    have hbm : List.Chain' keyLe (b :: m) := (List.chain'_cons.mp hch).2
    rcases List.mem_cons.mp hx with rfl | hx2
    · exact hab
    · exact keyLe_trans a b x hab (ih b hbm x hx2)

lemma collapseRuns_cons_cons_eq {α : Type} [DecidableEq α] (a : α) (l : List α) :
    collapseRuns (a :: a :: l) = collapseRuns (a :: l) := by
  simp [collapseRuns]

lemma collapseRuns_cons_cons_ne {α : Type} [DecidableEq α] (a b : α) (l : List α)
    (h : a ≠ b) : collapseRuns (a :: b :: l) = a :: collapseRuns (b :: l) := by
  simp [collapseRuns, h]

lemma collapse_eq_dedup :
    ∀ (l : List (String × String)), List.Chain' keyLe l → collapseRuns l = dedupKeepFirst l := by
  intro l
  induction l with
  | nil =>
    intro _
    simp [collapseRuns, dedupKeepFirst]
  | cons a m ih =>
    intro hch
    cases m with
    | nil => simp [collapseRuns, dedupKeepFirst]
    | cons b k =>
      have hab2 : keyLe a b := (List.chain'_cons.mp hch).1
      have hch2 : List.Chain' keyLe (b :: k) := (List.chain'_cons.mp hch).2
      by_cases hab : a = b
      · subst hab
        rw [collapseRuns_cons_cons_eq, ih hch2]
        simp [dedupKeepFirst, List.filter_cons]
      · rw [collapseRuns_cons_cons_ne a b k hab, ih hch2]
        have hall : ∀ x ∈ b :: k, x ≠ a := by
          intro x hx hxa
          have hbx : keyLe b x := by
            rcases List.mem_cons.mp hx with rfl | hx2
            · exact keyLe_refl x
            · exact chain'_le_all k b hch2 x hx2
          rw [hxa] at hbx
          exact hab (keyLe_antisymm a b hab2 hbx)
        have hfil : (b :: k).filter (fun x => decide (x ≠ a)) = b :: k := by
          apply List.filter_eq_self.mpr
          intro x hx
          simpa using hall x hx
        simp only [dedupKeepFirst, hfil]

lemma agg_cons_none (db : String) (r : RowData) (rest : List SnowflakeRow)
    (tables : List TableInfo) :
    agg_rows db (mkRow r :: rest) tables none =
      match decode_column_info (mkRow r) with
      | .ok col => agg_rows db rest tables (some ⟨db, r.table_schema, r.table_name, [col]⟩)
      | .error e => .error e := by
  cases hd : decode_column_info (mkRow r) with
  | ok col => simp [agg_rows, mkRow_table_schema, mkRow_table_name, hd]
  | error e => simp [agg_rows, mkRow_table_schema, mkRow_table_name, hd]

lemma agg_cons_same (db : String) (r : RowData) (rest : List SnowflakeRow)
    (tables : List TableInfo) (t : TableInfo)
    (h1 : t.schema_name = r.table_schema) (h2 : t.table_name = r.table_name) :
    agg_rows db (mkRow r :: rest) tables (some t) =
      match decode_column_info (mkRow r) with
      | .ok col =>
        agg_rows db rest tables
          (some ⟨t.database_name, t.schema_name, t.table_name, t.columns ++ [col]⟩)
      | .error e => .error e := by
  cases hd : decode_column_info (mkRow r) with
  | ok col => simp [agg_rows, mkRow_table_schema, mkRow_table_name, hd, h1, h2]
  | error e => simp [agg_rows, mkRow_table_schema, mkRow_table_name, hd, h1, h2]

lemma agg_cons_diff (db : String) (r : RowData) (rest : List SnowflakeRow)
    (tables : List TableInfo) (t : TableInfo)
    (h : ¬(t.schema_name = r.table_schema ∧ t.table_name = r.table_name)) :
    agg_rows db (mkRow r :: rest) tables (some t) =
      match decode_column_info (mkRow r) with
      | .ok col => agg_rows db rest (tables ++ [t]) (some ⟨db, r.table_schema, r.table_name, [col]⟩)
      | .error e => .error e := by
  have hcond : (t.schema_name != r.table_schema || t.table_name != r.table_name) = true := by
    rcases not_and_or.mp h with h2 | h2 <;> simp [bne_iff_ne, h2]
  cases hd : decode_column_info (mkRow r) with
  | ok col => simp [agg_rows, mkRow_table_schema, mkRow_table_name, hd, hcond]
  | error e => simp [agg_rows, mkRow_table_schema, mkRow_table_name, hd, hcond]

lemma agg_count (db : String) :
    ∀ (rows : List RowData) (tables : List TableInfo) (current : Option TableInfo)
      (ts : List TableInfo),
      agg_rows db (rows.map mkRow) tables current = .ok ts →
      colSum ts = colSum tables + curLen current + rows.length := by
  intro rows
  induction rows with
  | nil =>
    intro tables current ts h
    simp only [List.map_nil, agg_rows] at h
    cases h
    cases current with
    | none => simp [colSum, curLen]
    | some t => simp [colSum, curLen, List.map_append, List.sum_append]
  | cons r rest ih =>
    intro tables current ts h
    rw [List.map_cons] at h
    cases current with
    | none =>
      rw [agg_cons_none] at h
      cases hd : decode_column_info (mkRow r) with
      | error e =>
        rw [hd] at h
        simp at h
      | ok col =>
        rw [hd] at h
        have h5 := ih tables (some ⟨db, r.table_schema, r.table_name, [col]⟩) ts h
        simp only [curLen, List.length_cons, List.length_nil] at h5 ⊢
        omega
    | some t =>
      by_cases hkey : t.schema_name = r.table_schema ∧ t.table_name = r.table_name
      · rw [agg_cons_same db r _ tables t hkey.1 hkey.2] at h
        cases hd : decode_column_info (mkRow r) with
        | error e =>
          rw [hd] at h
          simp at h
        | ok col =>
          rw [hd] at h
          have h5 := ih tables
            (some ⟨t.database_name, t.schema_name, t.table_name, t.columns ++ [col]⟩) ts h
          simp only [curLen, List.length_append, List.length_cons, List.length_nil] at h5 ⊢
          omega
      · rw [agg_cons_diff db r _ tables t hkey] at h
        cases hd : decode_column_info (mkRow r) with
        | error e =>
          rw [hd] at h
          simp at h
        | ok col =>
          rw [hd] at h
          have h5 := ih (tables ++ [t]) (some ⟨db, r.table_schema, r.table_name, [col]⟩) ts h
          simp only [curLen, colSum, List.map_append, List.sum_append, List.map_cons,
            List.map_nil, List.sum_cons, List.sum_nil, List.length_cons, List.length_nil] at h5 ⊢
          omega

lemma agg_keys (db : String) :
    ∀ (rows : List RowData) (tables : List TableInfo) (current : Option TableInfo)
      (ts : List TableInfo),
      agg_rows db (rows.map mkRow) tables current = .ok ts →
      ts.map tkey = tables.map tkey ++ collapseRuns (current.toList.map tkey ++ rows.map rkey) := by
  intro rows
  induction rows with
  | nil =>
    intro tables current ts h
    simp only [List.map_nil, agg_rows] at h
    cases h
    cases current with
    | none => simp [collapseRuns]
    | some t => simp [collapseRuns, Option.toList]
  | cons r rest ih =>
    intro tables current ts h
    rw [List.map_cons] at h
    cases current with
    | none =>
      rw [agg_cons_none] at h
      cases hd : decode_column_info (mkRow r) with
      | error e =>
        rw [hd] at h
        simp at h
      | ok col =>
        rw [hd] at h
        have h5 := ih tables (some ⟨db, r.table_schema, r.table_name, [col]⟩) ts h
        simpa [tkey, rkey, Option.toList] using h5
    | some t =>
      by_cases hkey : t.schema_name = r.table_schema ∧ t.table_name = r.table_name
      · rw [agg_cons_same db r _ tables t hkey.1 hkey.2] at h
        cases hd : decode_column_info (mkRow r) with
        | error e =>
          rw [hd] at h
          simp at h
        | ok col =>
          rw [hd] at h
          have h5 := ih tables
            (some ⟨t.database_name, t.schema_name, t.table_name, t.columns ++ [col]⟩) ts h
          simp only [Option.toList, List.map_cons, List.map_nil, List.cons_append,
            List.nil_append, tkey, rkey] at h5 ⊢
          rw [h5, ← hkey.1, ← hkey.2, collapseRuns_cons_cons_eq]
      · rw [agg_cons_diff db r _ tables t hkey] at h
        cases hd : decode_column_info (mkRow r) with
        | error e =>
          rw [hd] at h
          simp at h
        | ok col =>
          rw [hd] at h
          have h5 := ih (tables ++ [t]) (some ⟨db, r.table_schema, r.table_name, [col]⟩) ts h
          have hne : ((t.schema_name, t.table_name) : String × String) ≠
              (r.table_schema, r.table_name) := by
            simp only [Ne, Prod.mk.injEq]
            exact hkey
          simp only [Option.toList, List.map_cons, List.map_nil, List.cons_append,
            List.nil_append, List.map_append, tkey, rkey] at h5 ⊢
          rw [h5, collapseRuns_cons_cons_ne _ _ _ hne]
          simp

/-- The decoded columns, in input order, of the rows carrying a given
grouping key. -/
def decodedCols (k : String × String) (rows : List RowData) : List ColumnInfo :=
  rows.filterMap (fun r => if rkey r = k then (decode_column_info (mkRow r)).toOption else none)

lemma decodedCols_cons_mono (k : String × String) (r : RowData) (rest : List RowData) :
    (decodedCols k rest).Sublist (decodedCols k (r :: rest)) := by
  simp only [decodedCols, List.filterMap_cons]
  cases hif : (if rkey r = k then (decode_column_info (mkRow r)).toOption else none) with
  | none => exact List.Sublist.refl _
  | some c => exact List.Sublist.cons c (List.Sublist.refl _)

lemma decodedCols_cons_hit (k : String × String) (r : RowData) (rest : List RowData)
    (col : ColumnInfo) (hk : rkey r = k) (hd : decode_column_info (mkRow r) = .ok col) :
    decodedCols k (r :: rest) = col :: decodedCols k rest := by
  simp [decodedCols, List.filterMap_cons, hk, hd, Except.toOption]

lemma agg_nonempty (db : String) :
    ∀ (rows : List RowData) (tables : List TableInfo) (current : Option TableInfo)
      (ts : List TableInfo),
      (∀ t ∈ tables, t.columns ≠ []) →
      (∀ t0, current = some t0 → t0.columns ≠ []) →
      agg_rows db (rows.map mkRow) tables current = .ok ts →
      ∀ t ∈ ts, t.columns ≠ [] := by
  intro rows
  induction rows with
  | nil =>
    intro tables current ts htab hcur h
    simp only [List.map_nil, agg_rows] at h
    cases h
    intro t ht
    rcases List.mem_append.mp ht with h1 | h1
    · exact htab t h1
    · cases current with
      | none => simp [Option.toList] at h1
      | some t0 =>
        simp only [Option.toList, List.mem_singleton] at h1
        rw [h1]
        exact hcur t0 rfl
  | cons r rest ih =>
    intro tables current ts htab hcur h
    rw [List.map_cons] at h
    cases current with
    | none =>
      rw [agg_cons_none] at h
      cases hd : decode_column_info (mkRow r) with
      | error e =>
        rw [hd] at h
        simp at h
      | ok col =>
        rw [hd] at h
        exact ih tables (some ⟨db, r.table_schema, r.table_name, [col]⟩) ts htab
          (by intro t0 h0; cases h0; simp) h
    | some t =>
      by_cases hkey : t.schema_name = r.table_schema ∧ t.table_name = r.table_name
      · rw [agg_cons_same db r _ tables t hkey.1 hkey.2] at h
        cases hd : decode_column_info (mkRow r) with
        | error e =>
          rw [hd] at h
          simp at h
        | ok col =>
          rw [hd] at h
          exact ih tables
            (some ⟨t.database_name, t.schema_name, t.table_name, t.columns ++ [col]⟩) ts htab
            (by intro t0 h0; cases h0; simp) h
      · rw [agg_cons_diff db r _ tables t hkey] at h
        cases hd : decode_column_info (mkRow r) with
        | error e =>
          rw [hd] at h
          simp at h
        | ok col =>
          rw [hd] at h
          refine ih (tables ++ [t]) (some ⟨db, r.table_schema, r.table_name, [col]⟩) ts ?_
            (by intro t0 h0; cases h0; simp) h
          intro t2 ht2
          rcases List.mem_append.mp ht2 with h1 | h1
          · exact htab t2 h1
          · rw [List.mem_singleton.mp h1]
            exact hcur t rfl

lemma agg_prov (db : String) :
    ∀ (rows : List RowData) (tables : List TableInfo) (current : Option TableInfo)
      (ts : List TableInfo),
      agg_rows db (rows.map mkRow) tables current = .ok ts →
      ∀ t ∈ ts, t ∈ tables ∨
        (∃ t0 suf, current = some t0 ∧ t.database_name = t0.database_name ∧
          t.schema_name = t0.schema_name ∧ t.table_name = t0.table_name ∧
          t.columns = t0.columns ++ suf ∧ suf.Sublist (decodedCols (tkey t) rows)) ∨
        (t.database_name = db ∧ t.columns.Sublist (decodedCols (tkey t) rows)) := by
  intro rows
  induction rows with
  | nil =>
    intro tables current ts h t ht
    simp only [List.map_nil, agg_rows] at h
    cases h
    rcases List.mem_append.mp ht with h1 | h1
    · exact Or.inl h1
    · cases current with
      | none => simp [Option.toList] at h1
      | some t0 =>
        simp only [Option.toList, List.mem_singleton] at h1
        subst h1
        refine Or.inr (Or.inl ⟨t, [], rfl, rfl, rfl, rfl, ?_, ?_⟩)
        · rw [List.append_nil]
        · exact List.nil_sublist _
  | cons r rest ih =>
    intro tables current ts h t ht
    rw [List.map_cons] at h
    cases current with
    | none =>
      rw [agg_cons_none] at h
      cases hd : decode_column_info (mkRow r) with
      | error e =>
        rw [hd] at h
        simp at h
      | ok col =>
        rw [hd] at h
        rcases ih tables (some ⟨db, r.table_schema, r.table_name, [col]⟩) ts h t ht with
          h1 | ⟨t0, suf, hc, hdb, hsn, htn, hcols, hsub⟩ | ⟨hdb, hsub⟩
        · exact Or.inl h1
        · cases hc
          refine Or.inr (Or.inr ⟨hdb, ?_⟩)
          have hk : rkey r = tkey t := by
            simp [rkey, tkey, hsn, htn]
          rw [decodedCols_cons_hit (tkey t) r rest col hk hd]
          rw [hcols]
          exact List.Sublist.cons₂ col hsub
        · exact Or.inr (Or.inr ⟨hdb,
            hsub.trans (decodedCols_cons_mono (tkey t) r rest)⟩)
    | some tc =>
      by_cases hkey : tc.schema_name = r.table_schema ∧ tc.table_name = r.table_name
      · rw [agg_cons_same db r _ tables tc hkey.1 hkey.2] at h
        cases hd : decode_column_info (mkRow r) with
        | error e =>
          rw [hd] at h
          simp at h
        | ok col =>
          rw [hd] at h
          rcases ih tables
              (some ⟨tc.database_name, tc.schema_name, tc.table_name, tc.columns ++ [col]⟩) ts h
              t ht with
            h1 | ⟨t0, suf, hc, hdb, hsn, htn, hcols, hsub⟩ | ⟨hdb, hsub⟩
          · exact Or.inl h1
          · cases hc
            refine Or.inr (Or.inl ⟨tc, col :: suf, rfl, hdb, hsn, htn, ?_, ?_⟩)
            · rw [hcols, List.append_assoc]
              rfl
            · have hk : rkey r = tkey t := by
                simp [rkey, tkey, hsn, htn, hkey.1, hkey.2]
              rw [decodedCols_cons_hit (tkey t) r rest col hk hd]
              exact List.Sublist.cons₂ col hsub
          · exact Or.inr (Or.inr ⟨hdb,
              hsub.trans (decodedCols_cons_mono (tkey t) r rest)⟩)
      · rw [agg_cons_diff db r _ tables tc hkey] at h
        cases hd : decode_column_info (mkRow r) with
        | error e =>
          rw [hd] at h
          simp at h
        | ok col =>
          rw [hd] at h
          rcases ih (tables ++ [tc]) (some ⟨db, r.table_schema, r.table_name, [col]⟩) ts h
              t ht with
            h1 | ⟨t0, suf, hc, hdb, hsn, htn, hcols, hsub⟩ | ⟨hdb, hsub⟩
          · rcases List.mem_append.mp h1 with h2 | h2
            · exact Or.inl h2
            · rw [List.mem_singleton.mp h2]
              refine Or.inr (Or.inl ⟨tc, [], rfl, rfl, rfl, rfl, ?_, List.nil_sublist _⟩)
              rw [List.append_nil]
          · cases hc
            refine Or.inr (Or.inr ⟨hdb, ?_⟩)
            have hk : rkey r = tkey t := by
              simp [rkey, tkey, hsn, htn]
            rw [decodedCols_cons_hit (tkey t) r rest col hk hd]
            rw [hcols]
            exact List.Sublist.cons₂ col hsub
          · exact Or.inr (Or.inr ⟨hdb,
              hsub.trans (decodedCols_cons_mono (tkey t) r rest)⟩)

/-- Three catalog rows with grouping keys (S1,T1), (S1,T1), (S2,T2), sorted by
schema then table. -/
def exampleRows : List RowData :=
  [⟨"S1", "T1", "C1", "TEXT", "YES", none, none, none⟩,
   ⟨"S1", "T1", "C2", "TEXT", "NO", none, none, none⟩,
   ⟨"S2", "T2", "C3", "NUMBER", "YES", some "38", some "38", some "0"⟩]

/-- The first table aggregated from `exampleRows`. -/
def exTable1 : TableInfo :=
  ⟨"DB", "S1", "T1",
   [⟨"C1", "TEXT", true, none, none, none⟩, ⟨"C2", "TEXT", false, none, none, none⟩]⟩

/-- The second table aggregated from `exampleRows`. -/
def exTable2 : TableInfo :=
  ⟨"DB", "S2", "T2", [⟨"C3", "NUMBER", true, some 38, some 38, some 0⟩]⟩

/-- C1: for every row sequence sorted by the grouping key (as the catalog
query orders it), a successful aggregation yields tables whose summed column
counts equal the row count, listed in first-appearance order of each distinct
(schema, table) key; the empty row sequence yields the empty table sequence
and not an error, and the three example rows with keys
(S1,T1), (S1,T1), (S2,T2) yield exactly two tables with 2 and 1 columns. -/
theorem agg_sorted_spec (db : String) (rows : List RowData) (ts : List TableInfo)
    (hsort : List.Chain' keyLe (rows.map rkey))
    (hok : get_tables_for_database db (rows.map mkRow) = .ok ts) :
    colSum ts = rows.length ∧
    ts.map tkey = dedupKeepFirst (rows.map rkey) ∧
    get_tables_for_database db ([] : List SnowflakeRow) = .ok [] ∧
    get_tables_for_database "DB" (exampleRows.map mkRow) = .ok [exTable1, exTable2] ∧
    exTable1.columns.length = 2 ∧ exTable2.columns.length = 1 := by
  refine ⟨?_, ?_, rfl, by rfl, rfl, rfl⟩
  · have h := agg_count db rows [] none ts hok
    simpa [colSum, curLen] using h
  · have h := agg_keys db rows [] none ts hok
    simp only [List.map_nil, List.nil_append, Option.toList] at h
    rw [h]
    exact collapse_eq_dedup (rows.map rkey) hsort

theorem agg_sorted_spec_witness :
    colSum [] = ([] : List RowData).length ∧
    ([] : List TableInfo).map tkey = dedupKeepFirst (([] : List RowData).map rkey) ∧
    get_tables_for_database "DB" ([] : List SnowflakeRow) = .ok [] ∧
    get_tables_for_database "DB" (exampleRows.map mkRow) = .ok [exTable1, exTable2] ∧
    exTable1.columns.length = 2 ∧ exTable2.columns.length = 1 :=
  agg_sorted_spec "DB" [] [] List.chain'_nil rfl

/-- C5: for every input row sequence, sorted or not, every table produced by
a successful aggregation has a non-empty column sequence, carries the
caller-supplied database name, keeps its columns in input-row order (each
table's columns form a sublist of the decoded columns of the rows bearing its
key), and every column was decoded from a row whose (schema, table) key
equals the table's key. -/
theorem agg_invariants (db : String) (rows : List RowData) (ts : List TableInfo)
    (hok : get_tables_for_database db (rows.map mkRow) = .ok ts) :
    ∀ t ∈ ts, t.columns ≠ [] ∧ t.database_name = db ∧
      t.columns.Sublist (decodedCols (tkey t) rows) ∧
      ∀ c ∈ t.columns, ∃ r ∈ rows, rkey r = tkey t ∧
        decode_column_info (mkRow r) = .ok c := by
  intro t ht
  have hok2 : agg_rows db (rows.map mkRow) [] none = .ok ts := hok
  have hne := agg_nonempty db rows [] none ts (fun t2 ht2 => absurd ht2 (List.not_mem_nil t2))
    (fun t0 h0 => Option.noConfusion h0) hok2 t ht
  have hp := agg_prov db rows [] none ts hok2 t ht
  rcases hp with h1 | ⟨t0, suf, hc, _⟩ | ⟨hdb, hsub⟩
  · simp at h1
  · exact absurd hc (by simp)
  · refine ⟨hne, hdb, hsub, ?_⟩
    intro c hc
    have hmem : c ∈ decodedCols (tkey t) rows := hsub.mem hc
    obtain ⟨r, hr, hsome⟩ := List.mem_filterMap.mp hmem
    by_cases hk : rkey r = tkey t
    · rw [if_pos hk] at hsome
      cases hdec : decode_column_info (mkRow r) with
      | error e =>
        rw [hdec] at hsome
        simp [Except.toOption] at hsome
      | ok c2 =>
        rw [hdec] at hsome
        simp only [Except.toOption, Option.some.injEq] at hsome
        exact ⟨r, hr, hk, by rw [hdec, hsome]⟩
    · rw [if_neg hk] at hsome
      simp at hsome

theorem agg_invariants_witness :
    exTable1.columns ≠ [] ∧ exTable1.database_name = "DB" ∧
    exTable1.columns.Sublist (decodedCols (tkey exTable1) exampleRows) ∧
    (∀ c ∈ exTable1.columns, ∃ r ∈ exampleRows, rkey r = tkey exTable1 ∧
      decode_column_info (mkRow r) = .ok c) :=
  agg_invariants "DB" exampleRows [exTable1, exTable2] (by rfl) exTable1
    (List.mem_cons_self exTable1 [exTable2])
